import Mathlib

/-!
Verification of the credential-management subsystem of the
Customer-Analysis-Dashboard repository (src/auth.py).

Python strings are modelled as lists of characters (`Str`), Python dicts
holding the string fields used by auth.py as association lists (`Doc`),
and values parsed from the local JSON file as `JItem` (an object, or some
other JSON value on which calling `.get` raises `AttributeError`).

The bcrypt library is external to the repository; it is abstracted by the
`HashCfg` record: `bcryptAvail` models whether `try_import("bcrypt")`
succeeded, `bcryptHash` models `bcrypt.hashpw` (with its salt fixed),
and `bcryptCheck` models `bcrypt.checkpw`, `none` standing for a raised
exception.  The pymongo collection used by `AuthManager` when Mongo is
active is modelled as a list of documents with the standard semantics of
`count_documents`, `find_one`, `insert_one` and exclusion projection.
-/

/-- A Python string, as a list of characters. -/
abbrev Str := List Char

/-- The character list of a Lean string literal. -/
def lit (s : String) : Str := s.data

/-- Python `str.strip()`: remove leading and trailing whitespace. -/
def pyStrip (s : Str) : Str :=
  ((s.dropWhile Char.isWhitespace).reverse.dropWhile Char.isWhitespace).reverse

/-- Python `s.startswith(pre)`. -/
def pyStartsWith (s pre : Str) : Bool := pre.isPrefixOf s

/-- A Python dict with string keys and string values (the only shape
auth.py ever builds for a user document). -/
abbrev Doc := List (Str × Str)

/-- Python `d.get(k)`: `none` when the key is absent. -/
def Doc.get (d : Doc) (k : Str) : Option Str :=
  match d with
  | [] => none
  | (k', v) :: rest => if k' = k then some v else Doc.get rest k

/-- Python `d.get(k, dflt)`. -/
def Doc.getD (d : Doc) (k : Str) (dflt : Str) : Str := (Doc.get d k).getD dflt

/-- An element of the list parsed from the local JSON file: either a JSON
object (a dict) or some other JSON value, on which `.get` raises. -/
inductive JItem where
  | obj (d : Doc)
  | nonObj
deriving DecidableEq, Repr

/-- The content of the local store file, as seen by `_read_local`. -/
inductive FileContent where
  | missing
  | unparsable
  | nonList
  | parsedList (items : List JItem)
deriving DecidableEq, Repr

/-- The exceptions auth.py can raise from its operations:
`ValueError("username and password are required")`, `ValueError("user exists")`,
and the `AttributeError` raised by `u.get(...)` when a parsed item is not
a dict. -/
inductive PyError where
  | invalidArgument
  | conflict
  | attributeError
deriving DecidableEq, Repr

/-- The external hashing primitive (bcrypt) as seen by auth.py. -/
structure HashCfg where
  bcryptAvail : Bool
  bcryptHash : Str → Str
  bcryptCheck : Str → Str → Option Bool

/-- `_hash_pw` from src/auth.py lines 22-26. -/
def _hash_pw (cfg : HashCfg) (password : Str) : Str :=
  if cfg.bcryptAvail then cfg.bcryptHash password
  else lit "devhash$" ++ password

/-- `_check_pw` from src/auth.py lines 28-36, keeping the source's exact
boolean structure `bcrypt and stored and stored.startswith("$2b$") or
(bcrypt and stored.startswith("$2a$"))`.  The `try/except` around
`bcrypt.checkpw` becomes `Option.getD false`. -/
def _check_pw (cfg : HashCfg) (password stored : Str) : Bool :=
  if (cfg.bcryptAvail && !stored.isEmpty && pyStartsWith stored (lit "$2b$"))
      || (cfg.bcryptAvail && pyStartsWith stored (lit "$2a$")) then
    (cfg.bcryptCheck password stored).getD false
  else if !stored.isEmpty && pyStartsWith stored (lit "devhash$") then
    decide (stored = lit "devhash$" ++ password)
  else
    false

/-- The state of an `AuthManager`: which backend is active, the Mongo
`users` collection (meaningful when `useMongo`), and the local file. -/
structure AuthState where
  useMongo : Bool
  mongoStore : List Doc
  localFile : FileContent
deriving DecidableEq, Repr

/-- `_read_local` from src/auth.py lines 70-76: unparsable content, a
missing file and a parsed non-list all yield `[]`; a parsed list is
returned as-is. -/
def _read_local : FileContent → List JItem
  | .missing => []
  | .unparsable => []
  | .nonList => []
  | .parsedList items => items

/-- The generator `any(u.get("username") == username for u in data)` in
`create_user`: it stops at the first match, and raises `AttributeError`
if it reaches a non-dict element first. -/
def anyUsernameEq (items : List JItem) (uname : Str) : Except PyError Bool :=
  match items with
  | [] => .ok false
  | .nonObj :: _ => .error .attributeError
  | .obj d :: rest =>
    if Doc.get d (lit "username") = some uname then .ok true
    else anyUsernameEq rest uname

/-- The generator `next((u for u in data if u.get("username") == username), None)`
in `authenticate`. -/
def findUserDoc (items : List JItem) (uname : Str) : Except PyError (Option Doc) :=
  match items with
  | [] => .ok none
  | .nonObj :: _ => .error .attributeError
  | .obj d :: rest =>
    if Doc.get d (lit "username") = some uname then .ok (some d)
    else findUserDoc rest uname

/-- `count_documents({"username": username})` on the modelled collection. -/
def countMongoUsername (store : List Doc) (uname : Str) : Nat :=
  (store.filter (fun d => Doc.get d (lit "username") == some uname)).length

/-- `find_one({"username": username})` on the modelled collection. -/
def findMongoUsername (store : List Doc) (uname : Str) : Option Doc :=
  store.find? (fun d => Doc.get d (lit "username") == some uname)

/-- `create_user` from src/auth.py lines 82-97. -/
def create_user (cfg : HashCfg) (s : AuthState) (username password role : Str) :
    Except PyError AuthState :=
  if username.isEmpty || password.isEmpty then .error .invalidArgument
  else
    let uname := pyStrip username
    let hashed := _hash_pw cfg password
    let user_doc : Doc := [(lit "username", uname), (lit "password", hashed), (lit "role", role)]
    if s.useMongo then
      if 0 < countMongoUsername s.mongoStore uname then .error .conflict
      else .ok { s with mongoStore := s.mongoStore ++ [user_doc] }
    else
      match anyUsernameEq (_read_local s.localFile) uname with
      | .error e => .error e
      | .ok true => .error .conflict
      | .ok false =>
        .ok { s with localFile := .parsedList (_read_local s.localFile ++ [.obj user_doc]) }

/-- The dict `{"username": doc.get("username"), "role": doc.get("role", "user")}`
returned by a successful `authenticate`. -/
structure Identity where
  username : Option Str
  role : Str
deriving DecidableEq, Repr

/-- `authenticate` from src/auth.py lines 99-114. -/
def authenticate (cfg : HashCfg) (s : AuthState) (username password : Str) :
    Except PyError (Option Identity) :=
  if username.isEmpty || password.isEmpty then .ok none
  else
    let uname := pyStrip username
    if s.useMongo then
      match findMongoUsername s.mongoStore uname with
      | none => .ok none
      | some doc =>
        if _check_pw cfg password (Doc.getD doc (lit "password") []) then
          .ok (some ⟨Doc.get doc (lit "username"), Doc.getD doc (lit "role") (lit "user")⟩)
        else .ok none
    else
      match findUserDoc (_read_local s.localFile) uname with
      | .error e => .error e
      | .ok none => .ok none
      | .ok (some doc) =>
        if _check_pw cfg password (Doc.getD doc (lit "password") []) then
          .ok (some ⟨Doc.get doc (lit "username"), Doc.getD doc (lit "role") (lit "user")⟩)
        else .ok none

/-- The list comprehension in the local branch of `list_users`:
`[{"username": u.get("username"), "role": u.get("role")} for u in data]`,
which raises on a non-dict element. -/
def listLocalUsers (items : List JItem) : Except PyError (List (List (Str × Option Str))) :=
  match items with
  | [] => .ok []
  | .nonObj :: _ => .error .attributeError
  | .obj d :: rest =>
    (listLocalUsers rest).map
      (fun out => [(lit "username", Doc.get d (lit "username")),
                   (lit "role", Doc.get d (lit "role"))] :: out)

/-- `list_users` from src/auth.py lines 116-120.  The Mongo branch models
`find({}, {"password": 0, "_id": 0})` as the exclusion of those two keys
from each document. -/
def list_users (s : AuthState) : Except PyError (List (List (Str × Option Str))) :=
  if s.useMongo then
    .ok (s.mongoStore.map (fun d =>
      (d.filter (fun kv => !(kv.1 == lit "password") && !(kv.1 == lit "_id"))).map
        (fun kv => (kv.1, some kv.2))))
  else
    listLocalUsers (_read_local s.localFile)

/-- The `if not os.path.exists(...)` step of `__init__`: a missing local
file is created holding an empty list. -/
def ensureFile : FileContent → FileContent
  | .missing => .parsedList []
  | c => c

/-- `AuthManager.__init__` from src/auth.py lines 39-68.  `connected` is
`some store` when pymongo imported, a Mongo uri was configured and
`server_info()` succeeded (the collection then holding `store`), and
`none` on any failure path, in which case the local fallback is used.
The default admin is created only in the fallback branch, and only when
`_read_local` returns an empty list. -/
def authInit (cfg : HashCfg) (connected : Option (List Doc)) (lf : FileContent) :
    Except PyError AuthState :=
  let lf2 := ensureFile lf
  match connected with
  | some store => .ok ⟨true, store, lf2⟩
  | none =>
    let s : AuthState := ⟨false, [], lf2⟩
    if (_read_local lf2).isEmpty then
      create_user cfg s (lit "admin") (lit "admin123") (lit "admin")
    else .ok s

deriving instance DecidableEq for Except

/-- A degraded-mode configuration: bcrypt unavailable. -/
def cfgDev : HashCfg := ⟨false, fun p => p, fun _ _ => none⟩

/-- The contract of the external bcrypt primitive as used by auth.py:
hashes carry a strong-mode marker, and checking a password against its
own fresh hash succeeds. -/
def HashCfg.Sound (cfg : HashCfg) : Prop :=
  cfg.bcryptAvail = true →
    (∀ p, pyStartsWith (cfg.bcryptHash p) (lit "$2a$") = true ∨
          pyStartsWith (cfg.bcryptHash p) (lit "$2b$") = true) ∧
    (∀ p, cfg.bcryptCheck p (cfg.bcryptHash p) = some true)

/-- The user document built by `create_user`. -/
def newDoc (cfg : HashCfg) (username password role : Str) : Doc :=
  [(lit "username", pyStrip username), (lit "password", _hash_pw cfg password),
   (lit "role", role)]

/-- The duplicate check `create_user` performs on the active store. -/
def existsUser (s : AuthState) (uname : Str) : Except PyError Bool :=
  if s.useMongo then .ok (decide (0 < countMongoUsername s.mongoStore uname))
  else anyUsernameEq (_read_local s.localFile) uname

/-- Insertion of a user document into the active store. -/
def insertDoc (s : AuthState) (d : Doc) : AuthState :=
  if s.useMongo then { s with mongoStore := s.mongoStore ++ [d] }
  else { s with localFile := .parsedList (_read_local s.localFile ++ [.obj d]) }

/-- The record lookup `authenticate` performs on the active store. -/
def findDocFor (s : AuthState) (uname : Str) : Except PyError (Option Doc) :=
  if s.useMongo then .ok (findMongoUsername s.mongoStore uname)
  else findUserDoc (_read_local s.localFile) uname

/-- The records of the active store carrying the given username. -/
def matchingDocs (s : AuthState) (uname : Str) : List Doc :=
  if s.useMongo then s.mongoStore.filter (fun d => Doc.get d (lit "username") == some uname)
  else (_read_local s.localFile).filterMap (fun it =>
    match it with
    | .obj d => if Doc.get d (lit "username") == some uname then some d else none
    | .nonObj => none)

/-- The items of the active store (Mongo documents are always objects). -/
def activeItems (s : AuthState) : List JItem :=
  if s.useMongo then s.mongoStore.map JItem.obj else _read_local s.localFile

/-- The username field of a stored item, `none` for a non-object. -/
def itemUsername : JItem → Option Str
  | .obj d => Doc.get d (lit "username")
  | .nonObj => none

/-- Store states reachable from an empty active store by successful
`create_user` calls (the bootstrap admin being one such call). -/
inductive Reachable (cfg : HashCfg) : AuthState → Prop where
  | localEmpty : Reachable cfg ⟨false, [], .parsedList []⟩
  | mongoEmpty : Reachable cfg ⟨true, [], .parsedList []⟩
  | step {s s' : AuthState} {u p r : Str} :
      Reachable cfg s → create_user cfg s u p r = .ok s' → Reachable cfg s'

/-- Every stored item is an object whose username field is present and
already stripped, and usernames are unique across the active store. -/
def GoodStore (s : AuthState) : Prop :=
  (∀ it ∈ activeItems s, ∃ d, it = JItem.obj d ∧
     ∃ name, Doc.get d (lit "username") = some name ∧ pyStrip name = name) ∧
  ((activeItems s).map itemUsername).Nodup

/-! ### Helper lemmas about prefixes and `_check_pw` -/

theorem isPrefixOf_append_self (l t : List Char) : l.isPrefixOf (l ++ t) = true := by
  induction l with
  | nil => simp [List.isPrefixOf]
  | cons a l ih => simp [List.isPrefixOf, ih]

theorem pyStartsWith_nil_cons (c : Char) (pre : Str) :
    pyStartsWith [] (c :: pre) = false := rfl

theorem pyStartsWith_cons_cons (a c : Char) (s pre : Str) :
    pyStartsWith (a :: s) (c :: pre) = ((c == a) && pyStartsWith s pre) := rfl

theorem pyStartsWith_append_self (pre t : Str) : pyStartsWith (pre ++ t) pre = true :=
  isPrefixOf_append_self pre t

theorem exists_cons_of_startsWith (s pre : Str) (c : Char)
    (h : pyStartsWith s (c :: pre) = true) : ∃ t, s = c :: t := by
  cases s with
  | nil => exact absurd h (by simp [pyStartsWith_nil_cons])
  | cons a t =>
    rw [pyStartsWith_cons_cons] at h
    have h1 : (c == a) = true ∧ pyStartsWith t pre = true := by simpa using h
    exact ⟨t, by rw [eq_of_beq h1.1]⟩

theorem startsWith_ne_nil (s pre : Str) (c : Char)
    (h : pyStartsWith s (c :: pre) = true) : s.isEmpty = false := by
  obtain ⟨t, rfl⟩ := exists_cons_of_startsWith s pre c h
  rfl

theorem startsWith_excl (s : Str) (c1 c2 : Char) (p1 p2 : Str)
    (hne : (c2 == c1) = false) (h : pyStartsWith s (c1 :: p1) = true) :
    pyStartsWith s (c2 :: p2) = false := by
  obtain ⟨t, rfl⟩ := exists_cons_of_startsWith s p1 c1 h
  rw [pyStartsWith_cons_cons, hne, Bool.false_and]

theorem lit_devhash_eq : lit "devhash$" = 'd' :: lit "evhash$" := by decide

theorem lit_2a_eq : lit "$2a$" = '$' :: lit "2a$" := by decide

theorem lit_2b_eq : lit "$2b$" = '$' :: lit "2b$" := by decide

theorem check_pw_no_marker (cfg : HashCfg) (p stored : Str)
    (h2a : pyStartsWith stored (lit "$2a$") = false)
    (h2b : pyStartsWith stored (lit "$2b$") = false)
    (hdev : pyStartsWith stored (lit "devhash$") = false) :
    _check_pw cfg p stored = false := by
  unfold _check_pw
  rw [h2a, h2b, hdev]
  simp

theorem check_pw_strong (cfg : HashCfg) (p stored : Str)
    (hav : cfg.bcryptAvail = true)
    (hm : pyStartsWith stored (lit "$2a$") = true ∨ pyStartsWith stored (lit "$2b$") = true) :
    _check_pw cfg p stored = (cfg.bcryptCheck p stored).getD false := by
  unfold _check_pw
  rcases hm with h | h
  · rw [hav, h]
    simp
  · have hne : stored.isEmpty = false :=
      startsWith_ne_nil stored (lit "2b$") '$' (by rw [← lit_2b_eq]; exact h)
    rw [hav, h, hne]
    simp

theorem check_pw_strong_degraded (cfg : HashCfg) (p stored : Str)
    (hav : cfg.bcryptAvail = false)
    (hm : pyStartsWith stored (lit "$2a$") = true ∨ pyStartsWith stored (lit "$2b$") = true) :
    _check_pw cfg p stored = false := by
  have hdev : pyStartsWith stored (lit "devhash$") = false := by
    rw [lit_devhash_eq]
    rcases hm with h | h
    · exact startsWith_excl stored '$' 'd' (lit "2a$") (lit "evhash$") (by decide)
        (by rw [← lit_2a_eq]; exact h)
    · exact startsWith_excl stored '$' 'd' (lit "2b$") (lit "evhash$") (by decide)
        (by rw [← lit_2b_eq]; exact h)
  unfold _check_pw
  rw [hav, hdev]
  simp

theorem check_pw_devhash (cfg : HashCfg) (p stored : Str)
    (hdev : pyStartsWith stored (lit "devhash$") = true) :
    _check_pw cfg p stored = decide (stored = lit "devhash$" ++ p) := by
  have h2a : pyStartsWith stored (lit "$2a$") = false := by
    rw [lit_2a_eq]
    exact startsWith_excl stored 'd' '$' (lit "evhash$") (lit "2a$") (by decide)
      (by rw [← lit_devhash_eq]; exact hdev)
  have h2b : pyStartsWith stored (lit "$2b$") = false := by
    rw [lit_2b_eq]
    exact startsWith_excl stored 'd' '$' (lit "evhash$") (lit "2b$") (by decide)
      (by rw [← lit_devhash_eq]; exact hdev)
  have hne : stored.isEmpty = false :=
    startsWith_ne_nil stored (lit "evhash$") 'd' (by rw [← lit_devhash_eq]; exact hdev)
  unfold _check_pw
  rw [h2a, h2b, hne, hdev]
  simp

theorem check_hash_roundtrip (cfg : HashCfg) (hs : HashCfg.Sound cfg) (p : Str) :
    _check_pw cfg p (_hash_pw cfg p) = true := by
  by_cases hav : cfg.bcryptAvail = true
  · obtain ⟨hmark, hchk⟩ := hs hav
    have hh : _hash_pw cfg p = cfg.bcryptHash p := by unfold _hash_pw; rw [hav]; simp
    rw [hh, check_pw_strong cfg p _ hav (hmark p), hchk p]
    rfl
  · have hav' : cfg.bcryptAvail = false := by
      cases h : cfg.bcryptAvail
      · rfl
      · exact absurd h hav
    have hh : _hash_pw cfg p = lit "devhash$" ++ p := by unfold _hash_pw; rw [hav']; simp
    rw [hh, check_pw_devhash cfg p _ (pyStartsWith_append_self (lit "devhash$") p)]
    simp

/-! ### Structural lemmas about the store operations -/

theorem anyUsernameEq_eq_isSome (items : List JItem) (uname : Str) :
    anyUsernameEq items uname = (findUserDoc items uname).map Option.isSome := by
  induction items with
  | nil => rfl
  | cons it rest ih =>
    cases it with
    | nonObj => rfl
    | obj d =>
      simp only [anyUsernameEq, findUserDoc]
      split
      · rfl
      · exact ih

theorem findUserDoc_append (items more : List JItem) (uname : Str) :
    findUserDoc (items ++ more) uname =
      match findUserDoc items uname with
      | .ok none => findUserDoc more uname
      | r => r := by
  induction items with
  | nil => rfl
  | cons it rest ih =>
    cases it with
    | nonObj => rfl
    | obj d =>
      simp only [List.cons_append, findUserDoc]
      split
      · rfl
      · exact ih

theorem of_findUserDoc_none (items : List JItem) (uname : Str)
    (h : findUserDoc items uname = .ok none) :
    ∀ it ∈ items, ∃ d, it = JItem.obj d ∧ Doc.get d (lit "username") ≠ some uname := by
  induction items with
  | nil => intro it hit; exact absurd hit (List.not_mem_nil it)
  | cons hd rest ih =>
    cases hd with
    | nonObj => simp [findUserDoc] at h
    | obj d =>
      intro it hit
      rw [show findUserDoc (JItem.obj d :: rest) uname =
          (if Doc.get d (lit "username") = some uname then .ok (some d)
           else findUserDoc rest uname) from rfl] at h
      by_cases hd : Doc.get d (lit "username") = some uname
      · rw [if_pos hd] at h
        exact absurd h (by simp)
      · rw [if_neg hd] at h
        rcases List.mem_cons.mp hit with rfl | hit'
        · exact ⟨d, rfl, hd⟩
        · exact ih h it hit'

theorem findUserDoc_append_self (items : List JItem) (d : Doc) (uname : Str)
    (h : findUserDoc items uname = .ok none)
    (hd : Doc.get d (lit "username") = some uname) :
    findUserDoc (items ++ [.obj d]) uname = .ok (some d) := by
  rw [findUserDoc_append, h]
  simp [findUserDoc, hd]

theorem of_countMongo_zero (store : List Doc) (uname : Str)
    (h : countMongoUsername store uname = 0) :
    ∀ d ∈ store, Doc.get d (lit "username") ≠ some uname := by
  intro d hd hc
  unfold countMongoUsername at h
  rw [List.length_eq_zero] at h
  have hmem : d ∈ store.filter (fun d => Doc.get d (lit "username") == some uname) := by
    rw [List.mem_filter]
    exact ⟨hd, by simp [hc]⟩
  rw [h] at hmem
  exact absurd hmem (List.not_mem_nil d)

theorem findMongo_append_self (store : List Doc) (d : Doc) (uname : Str)
    (h : ∀ d' ∈ store, Doc.get d' (lit "username") ≠ some uname)
    (hd : Doc.get d (lit "username") = some uname) :
    findMongoUsername (store ++ [d]) uname = some d := by
  unfold findMongoUsername
  induction store with
  | nil => simp [List.find?, hd]
  | cons a rest ih =>
    have ha : Doc.get a (lit "username") ≠ some uname := h a (List.mem_cons_self a rest)
    simp only [List.cons_append, List.find?]
    rw [show (Doc.get a (lit "username") == some uname) = false from by simpa using ha]
    exact ih (fun d' hd' => h d' (List.mem_cons_of_mem a hd'))

theorem countMongo_append (store more : List Doc) (uname : Str) :
    countMongoUsername (store ++ more) uname =
      countMongoUsername store uname + countMongoUsername more uname := by
  unfold countMongoUsername
  rw [List.filter_append, List.length_append]

theorem create_user_eq (cfg : HashCfg) (s : AuthState) (u p r : Str) :
    create_user cfg s u p r =
      if u.isEmpty || p.isEmpty then .error .invalidArgument
      else
        match existsUser s (pyStrip u) with
        | .error e => .error e
        | .ok true => .error .conflict
        | .ok false => .ok (insertDoc s (newDoc cfg u p r)) := by
  unfold create_user existsUser insertDoc newDoc
  split
  · rfl
  · cases hm : s.useMongo with
    | true =>
      simp only [hm, if_true]
      by_cases hc : 0 < countMongoUsername s.mongoStore (pyStrip u)
      · simp [hc]
      · simp [hc]
    | false => simp only [hm, Bool.false_eq_true, if_false]

theorem authenticate_eq (cfg : HashCfg) (s : AuthState) (u p : Str) :
    authenticate cfg s u p =
      if u.isEmpty || p.isEmpty then .ok none
      else
        match findDocFor s (pyStrip u) with
        | .error e => .error e
        | .ok none => .ok none
        | .ok (some doc) =>
          if _check_pw cfg p (Doc.getD doc (lit "password") []) then
            .ok (some ⟨Doc.get doc (lit "username"), Doc.getD doc (lit "role") (lit "user")⟩)
          else .ok none := by
  unfold authenticate findDocFor
  split
  · rfl
  · cases hm : s.useMongo with
    | true =>
      simp only [hm, if_true]
      cases hf : findMongoUsername s.mongoStore (pyStrip u) with
      | none => rfl
      | some doc => rfl
    | false => simp only [hm, Bool.false_eq_true, if_false]

theorem create_user_ok_iff (cfg : HashCfg) (s : AuthState) (u p r : Str) (s' : AuthState) :
    create_user cfg s u p r = .ok s' ↔
      u ≠ [] ∧ p ≠ [] ∧ existsUser s (pyStrip u) = .ok false ∧
        s' = insertDoc s (newDoc cfg u p r) := by
  rw [create_user_eq]
  cases hu : u.isEmpty with
  | true =>
    have : u = [] := by
      cases u
      · rfl
      · simp [List.isEmpty] at hu
    simp [this]
  | false =>
    have hu' : u ≠ [] := by
      intro h
      rw [h] at hu
      simp [List.isEmpty] at hu
    cases hp : p.isEmpty with
    | true =>
      have : p = [] := by
        cases p
        · rfl
        · simp [List.isEmpty] at hp
      simp [this]
    | false =>
      have hp' : p ≠ [] := by
        intro h
        rw [h] at hp
        simp [List.isEmpty] at hp
      simp only [Bool.or_self, Bool.false_eq_true, if_false]
      cases he : existsUser s (pyStrip u) with
      | error e => simp [hu', hp']
      | ok b =>
        cases b with
        | true => simp [hu', hp']
        | false =>
          constructor
          · intro h
            exact ⟨hu', hp', rfl, (Except.ok.inj h).symm⟩
          · intro h
            rw [h.2.2.2]

/-! ### `pyStrip` is idempotent -/

theorem dropWhile_dropWhile (p : Char → Bool) (l : List Char) :
    (l.dropWhile p).dropWhile p = l.dropWhile p := by
  induction l with
  | nil => rfl
  | cons a l ih =>
    by_cases h : p a
    · simp [List.dropWhile_cons, h, ih]
    · simp [List.dropWhile_cons, h]

theorem dropWhile_eq_suffix (p : Char → Bool) (l : List Char) :
    ∃ t, l = t ++ l.dropWhile p := by
  induction l with
  | nil => exact ⟨[], rfl⟩
  | cons a l ih =>
    by_cases h : p a
    · obtain ⟨t, ht⟩ := ih
      refine ⟨a :: t, ?_⟩
      simp only [List.dropWhile_cons, h, if_true, List.cons_append]
      rw [← ht]
    · exact ⟨[], by simp [List.dropWhile_cons, h]⟩

theorem dropWhile_length_le (p : Char → Bool) (l : List Char) :
    (l.dropWhile p).length ≤ l.length := by
  induction l with
  | nil => exact Nat.le_refl 0
  | cons a l ih =>
    by_cases h : p a
    · simp only [List.dropWhile_cons, h, if_true]
      exact Nat.le_succ_of_le ih
    · simp [List.dropWhile_cons, h]

theorem dropWhile_eq_self_of_prepend (p : Char → Bool) (t w v : List Char)
    (hv : v = t ++ w) (hself : v.dropWhile p = v) : t.dropWhile p = t := by
  cases t with
  | nil => rfl
  | cons c t' =>
    have hc : p c = false := by
      cases hc2 : p c
      · rfl
      · rw [hv, List.cons_append, List.dropWhile_cons, hc2, if_pos rfl] at hself
        have hlen := dropWhile_length_le p (t' ++ w)
        rw [hself] at hlen
        simp at hlen
    simp [List.dropWhile_cons, hc]

theorem strip_core_idem (p : Char → Bool) (s : List Char) :
    ((((s.dropWhile p).reverse.dropWhile p).reverse.dropWhile p).reverse.dropWhile p).reverse
      = ((s.dropWhile p).reverse.dropWhile p).reverse := by
  obtain ⟨w, hw⟩ := dropWhile_eq_suffix p (s.dropWhile p).reverse
  have hvt : s.dropWhile p = ((s.dropWhile p).reverse.dropWhile p).reverse ++ w.reverse := by
    calc s.dropWhile p = (s.dropWhile p).reverse.reverse := (List.reverse_reverse _).symm
      _ = (w ++ (s.dropWhile p).reverse.dropWhile p).reverse := by rw [← hw]
      _ = ((s.dropWhile p).reverse.dropWhile p).reverse ++ w.reverse :=
          List.reverse_append _ _
  have h1 : (((s.dropWhile p).reverse.dropWhile p).reverse).dropWhile p
      = ((s.dropWhile p).reverse.dropWhile p).reverse :=
    dropWhile_eq_self_of_prepend p _ w.reverse _ hvt (dropWhile_dropWhile p s)
  rw [h1, List.reverse_reverse, dropWhile_dropWhile]

theorem pyStrip_idem (s : Str) : pyStrip (pyStrip s) = pyStrip s :=
  strip_core_idem Char.isWhitespace s

/-! ### The store invariant -/

theorem findUserDoc_none_of_any_false (items : List JItem) (uname : Str)
    (h : anyUsernameEq items uname = .ok false) :
    findUserDoc items uname = .ok none := by
  rw [anyUsernameEq_eq_isSome] at h
  cases hf : findUserDoc items uname with
  | error e => rw [hf] at h; exact absurd h (by simp [Except.map])
  | ok o =>
    cases o with
    | none => rfl
    | some d => rw [hf] at h; exact absurd h (by simp [Except.map])

theorem not_mem_usernames_of_existsUser_false (s : AuthState) (uname : Str)
    (h : existsUser s uname = .ok false) :
    ∀ it ∈ activeItems s, itemUsername it ≠ some uname := by
  unfold existsUser at h
  unfold activeItems
  cases hm : s.useMongo with
  | true =>
    rw [hm] at h
    simp only [if_true] at h
    have hz : countMongoUsername s.mongoStore uname = 0 := by
      have hd : decide (0 < countMongoUsername s.mongoStore uname) = false := by
        have := Except.ok.inj h
        exact this
      have := of_decide_eq_false hd
      omega
    intro it hit
    simp only [if_true, List.mem_map] at hit
    obtain ⟨d, hd, rfl⟩ := hit
    exact of_countMongo_zero s.mongoStore uname hz d hd
  | false =>
    rw [hm] at h
    simp only [Bool.false_eq_true, if_false] at h ⊢
    have hfind := findUserDoc_none_of_any_false _ _ h
    intro it hit
    obtain ⟨d, rfl, hne⟩ := of_findUserDoc_none _ _ hfind it hit
    exact hne

theorem newDoc_username (cfg : HashCfg) (u p r : Str) :
    Doc.get (newDoc cfg u p r) (lit "username") = some (pyStrip u) := by
  simp [newDoc, Doc.get]

theorem activeItems_insertDoc (s : AuthState) (d : Doc) :
    activeItems (insertDoc s d) = activeItems s ++ [JItem.obj d] := by
  unfold activeItems insertDoc
  cases hm : s.useMongo with
  | true => simp [hm]
  | false => simp [hm, _read_local]

/-! ### Claim theorems -/

/-- C4: `_check_pw(password, stored)` dispatches on the marker prefix of
`stored`: with no recognized marker (`$2a$`, `$2b$`, `devhash$`) it
returns false; with a strong marker it defers to bcrypt when bcrypt is
available (a bcrypt exception yielding false via `Option.getD`) and
returns false when bcrypt is unavailable; with the `devhash$` marker it
compares against the devhash encoding.  Being a total `Bool`-valued
function, it never raises. -/
theorem claim4_check_pw_dispatch (cfg : HashCfg) (p stored : Str) :
    (pyStartsWith stored (lit "$2a$") = false →
     pyStartsWith stored (lit "$2b$") = false →
     pyStartsWith stored (lit "devhash$") = false →
     _check_pw cfg p stored = false) ∧
    ((pyStartsWith stored (lit "$2a$") = true ∨ pyStartsWith stored (lit "$2b$") = true) →
     cfg.bcryptAvail = true →
     _check_pw cfg p stored = (cfg.bcryptCheck p stored).getD false) ∧
    ((pyStartsWith stored (lit "$2a$") = true ∨ pyStartsWith stored (lit "$2b$") = true) →
     cfg.bcryptAvail = false →
     _check_pw cfg p stored = false) ∧
    (pyStartsWith stored (lit "devhash$") = true →
     _check_pw cfg p stored = decide (stored = lit "devhash$" ++ p)) :=
  ⟨fun h2a h2b hdev => check_pw_no_marker cfg p stored h2a h2b hdev,
   fun hm hav => check_pw_strong cfg p stored hav hm,
   fun hm hav => check_pw_strong_degraded cfg p stored hav hm,
   fun hdev => check_pw_devhash cfg p stored hdev⟩

/-- Witness for C4 at concrete inputs. -/
theorem claim4_witness :
    _check_pw cfgDev (lit "pw") (lit "nohash") = false ∧
    _check_pw cfgDev (lit "pw") (lit "$2b$abc") = false ∧
    _check_pw cfgDev (lit "pw") (lit "devhash$pw")
      = decide (lit "devhash$pw" = lit "devhash$" ++ lit "pw") :=
  ⟨(claim4_check_pw_dispatch cfgDev (lit "pw") (lit "nohash")).1
     (by decide) (by decide) (by decide),
   (claim4_check_pw_dispatch cfgDev (lit "pw") (lit "$2b$abc")).2.2.1
     (Or.inr (by decide)) (by decide),
   (claim4_check_pw_dispatch cfgDev (lit "pw") (lit "devhash$pw")).2.2.2 (by decide)⟩

/-- C10: when bcrypt is unavailable at process start, `_check_pw` returns
false for every stored value carrying a strong-mode marker, so a record
whose hash was produced in strong mode can never authenticate in a
degraded-mode process. -/
theorem claim10_degraded_strong_hash_rejected (cfg : HashCfg) (s : AuthState)
    (u p h : Str) (doc : Doc)
    (hav : cfg.bcryptAvail = false)
    (hm : pyStartsWith h (lit "$2a$") = true ∨ pyStartsWith h (lit "$2b$") = true) :
    _check_pw cfg p h = false ∧
    (findDocFor s (pyStrip u) = .ok (some doc) →
     Doc.getD doc (lit "password") [] = h →
     authenticate cfg s u p = .ok none) := by
  have hchk := check_pw_strong_degraded cfg p h hav hm
  refine ⟨hchk, fun hf hpw => ?_⟩
  rw [authenticate_eq]
  by_cases he : (u.isEmpty || p.isEmpty) = true
  · rw [if_pos he]
  · rw [if_neg he, hf]
    simp [hpw, hchk]

/-- Witness for C10 at a concrete degraded-mode store holding a
strong-mode hash. -/
theorem claim10_witness :
    _check_pw cfgDev (lit "pw") (lit "$2b$12abc") = false ∧
    authenticate cfgDev
      ⟨false, [], .parsedList [.obj [(lit "username", lit "bob"), (lit "password", lit "$2b$12abc")]]⟩
      (lit "bob") (lit "pw") = .ok none := by
  have h := claim10_degraded_strong_hash_rejected cfgDev
    ⟨false, [], .parsedList [.obj [(lit "username", lit "bob"), (lit "password", lit "$2b$12abc")]]⟩
    (lit "bob") (lit "pw") (lit "$2b$12abc")
    [(lit "username", lit "bob"), (lit "password", lit "$2b$12abc")]
    (by decide) (Or.inr (by decide))
  exact ⟨h.1, h.2 (by decide) (by decide)⟩

/-- C6: `authenticate` returns `null` (not an error) when an argument is
empty, when no record matches the trimmed username, and when hash
verification fails; all three cases produce the same `.ok none` value, so
the unregistered-username null is identical in shape to the
wrong-password null. -/
theorem claim6_authenticate_null_cases (cfg : HashCfg) (s : AuthState) (u p : Str) :
    (u = [] ∨ p = [] → authenticate cfg s u p = .ok none) ∧
    (findDocFor s (pyStrip u) = .ok none → authenticate cfg s u p = .ok none) ∧
    (∀ doc, findDocFor s (pyStrip u) = .ok (some doc) →
       _check_pw cfg p (Doc.getD doc (lit "password") []) = false →
       authenticate cfg s u p = .ok none) := by
  refine ⟨?_, ?_, ?_⟩
  · intro h
    rw [authenticate_eq]
    have he : (u.isEmpty || p.isEmpty) = true := by
      rcases h with rfl | rfl <;> simp [List.isEmpty]
    rw [if_pos he]
  · intro hf
    rw [authenticate_eq]
    by_cases he : (u.isEmpty || p.isEmpty) = true
    · rw [if_pos he]
    · rw [if_neg he, hf]
  · intro doc hf hchk
    rw [authenticate_eq]
    by_cases he : (u.isEmpty || p.isEmpty) = true
    · rw [if_pos he]
    · rw [if_neg he, hf]
      simp [hchk]

/-- Witness for C6: an unregistered username yields `.ok none`. -/
theorem claim6_witness :
    authenticate cfgDev ⟨false, [], .parsedList []⟩ (lit "ghost") (lit "pw") = .ok none :=
  (claim6_authenticate_null_cases cfgDev ⟨false, [], .parsedList []⟩
    (lit "ghost") (lit "pw")).2.1 (by decide)

/-- C7: `create_user` fails with `InvalidArgument` whenever the username
or the password is empty.  The check precedes any store access in the
source, and in this functional embedding an error result carries no new
state, so the store is unchanged. -/
theorem claim7_create_invalid_argument (cfg : HashCfg) (s : AuthState) (u p r : Str)
    (h : u = [] ∨ p = []) :
    create_user cfg s u p r = .error .invalidArgument := by
  rw [create_user_eq]
  have he : (u.isEmpty || p.isEmpty) = true := by
    rcases h with rfl | rfl <;> simp [List.isEmpty]
  rw [if_pos he]

/-- Witness for C7: both `createUser("", "x")` and `createUser("x", "")`. -/
theorem claim7_witness :
    create_user cfgDev ⟨false, [], .parsedList []⟩ [] (lit "x") (lit "user")
      = .error .invalidArgument ∧
    create_user cfgDev ⟨false, [], .parsedList []⟩ (lit "x") [] (lit "user")
      = .error .invalidArgument :=
  ⟨claim7_create_invalid_argument cfgDev ⟨false, [], .parsedList []⟩ [] (lit "x")
     (lit "user") (Or.inl rfl),
   claim7_create_invalid_argument cfgDev ⟨false, [], .parsedList []⟩ (lit "x") []
     (lit "user") (Or.inr rfl)⟩

theorem isEmpty_or_false (u p : Str) (hu : u ≠ []) (hp : p ≠ []) :
    (u.isEmpty || p.isEmpty) = false := by
  cases u
  · exact absurd rfl hu
  · cases p
    · exact absurd rfl hp
    · rfl

theorem existsUser_mongo_false (s : AuthState) (uname : Str) (hm : s.useMongo = true)
    (hex : existsUser s uname = .ok false) :
    countMongoUsername s.mongoStore uname = 0 := by
  unfold existsUser at hex
  rw [hm] at hex
  simp only [if_true] at hex
  have hd : decide (0 < countMongoUsername s.mongoStore uname) = false := Except.ok.inj hex
  have := of_decide_eq_false hd
  omega

theorem existsUser_local_false (s : AuthState) (uname : Str) (hm : s.useMongo = false)
    (hex : existsUser s uname = .ok false) :
    anyUsernameEq (_read_local s.localFile) uname = .ok false := by
  unfold existsUser at hex
  rw [hm] at hex
  simpa using hex

theorem newDoc_password (cfg : HashCfg) (u p r : Str) :
    Doc.getD (newDoc cfg u p r) (lit "password") [] = _hash_pw cfg p := by
  have h1 : lit "username" ≠ lit "password" := by decide
  simp [newDoc, Doc.getD, Doc.get, h1]

theorem newDoc_role (cfg : HashCfg) (u p r : Str) :
    Doc.getD (newDoc cfg u p r) (lit "role") (lit "user") = r := by
  have h1 : lit "username" ≠ lit "role" := by decide
  have h2 : lit "password" ≠ lit "role" := by decide
  simp [newDoc, Doc.getD, Doc.get, h1, h2]

theorem countMongo_singleton_self (d : Doc) (uname : Str)
    (hd : Doc.get d (lit "username") = some uname) :
    countMongoUsername [d] uname = 1 := by
  simp [countMongoUsername, hd]

theorem findDocFor_insert_self (s : AuthState) (d : Doc) (uname : Str)
    (hex : existsUser s uname = .ok false)
    (hd : Doc.get d (lit "username") = some uname) :
    findDocFor (insertDoc s d) uname = .ok (some d) := by
  unfold findDocFor insertDoc
  cases hm : s.useMongo with
  | true =>
    have hz := existsUser_mongo_false s uname hm hex
    simp only [hm, if_true]
    rw [findMongo_append_self s.mongoStore d uname (of_countMongo_zero _ _ hz) hd]
  | false =>
    have hl := existsUser_local_false s uname hm hex
    have hnone := findUserDoc_none_of_any_false _ _ hl
    simp only [hm, Bool.false_eq_true, if_false]
    exact findUserDoc_append_self _ d uname hnone hd

theorem anyUsernameEq_append_self (items : List JItem) (d : Doc) (uname : Str)
    (h : anyUsernameEq items uname = .ok false)
    (hd : Doc.get d (lit "username") = some uname) :
    anyUsernameEq (items ++ [.obj d]) uname = .ok true := by
  have hnone := findUserDoc_none_of_any_false items uname h
  rw [anyUsernameEq_eq_isSome, findUserDoc_append_self items d uname hnone hd]
  rfl

theorem existsUser_insert_self (s : AuthState) (d : Doc) (uname : Str)
    (hex : existsUser s uname = .ok false)
    (hd : Doc.get d (lit "username") = some uname) :
    existsUser (insertDoc s d) uname = .ok true := by
  unfold existsUser insertDoc
  cases hm : s.useMongo with
  | true =>
    have hz := existsUser_mongo_false s uname hm hex
    simp only [hm, if_true]
    rw [countMongo_append, hz, countMongo_singleton_self d uname hd]
    rfl
  | false =>
    have hl := existsUser_local_false s uname hm hex
    simp only [hm, Bool.false_eq_true, if_false]
    exact anyUsernameEq_append_self _ d uname hl hd

theorem matchingDocs_empty_of_existsUser_false (s : AuthState) (uname : Str)
    (hex : existsUser s uname = .ok false) : matchingDocs s uname = [] := by
  unfold matchingDocs
  cases hm : s.useMongo with
  | true =>
    have hz := existsUser_mongo_false s uname hm hex
    unfold countMongoUsername at hz
    rw [List.length_eq_zero] at hz
    simp only [hm, if_true]
    exact hz
  | false =>
    have hl := existsUser_local_false s uname hm hex
    have hall := of_findUserDoc_none _ _ (findUserDoc_none_of_any_false _ _ hl)
    simp only [hm, Bool.false_eq_true, if_false]
    rw [List.filterMap_eq_nil_iff]
    intro it hit
    obtain ⟨d, rfl, hne⟩ := hall it hit
    have hb : (Doc.get d (lit "username") == some uname) = false := by simpa using hne
    simp [hb]

theorem matchingDocs_insert_self (s : AuthState) (d : Doc) (uname : Str)
    (hd : Doc.get d (lit "username") = some uname) :
    matchingDocs (insertDoc s d) uname = matchingDocs s uname ++ [d] := by
  unfold matchingDocs insertDoc
  cases hm : s.useMongo with
  | true =>
    simp only [hm, if_true]
    rw [List.filter_append]
    simp [hd]
  | false =>
    simp only [hm, Bool.false_eq_true, if_false]
    rw [show _read_local (FileContent.parsedList (_read_local s.localFile ++ [.obj d]))
        = _read_local s.localFile ++ [.obj d] from rfl]
    rw [List.filterMap_append]
    simp [hd]

/-- C1: for a username and password accepted by `create_user` on a store
whose duplicate check reports no record for the trimmed username, the
subsequent `authenticate` with the same arguments returns a non-null
identity whose username is the trimmed input (and whose role is the
default `"user"`).  Holds for both backends and both hashing modes. -/
theorem claim1_create_then_authenticate (cfg : HashCfg) (s : AuthState) (u p : Str)
    (hs : HashCfg.Sound cfg) (hu : u ≠ []) (hp : p ≠ [])
    (hex : existsUser s (pyStrip u) = .ok false) :
    ∃ s', create_user cfg s u p (lit "user") = .ok s' ∧
      authenticate cfg s' u p = .ok (some ⟨some (pyStrip u), lit "user"⟩) := by
  refine ⟨insertDoc s (newDoc cfg u p (lit "user")), ?_, ?_⟩
  · exact (create_user_ok_iff cfg s u p (lit "user") _).mpr ⟨hu, hp, hex, rfl⟩
  · rw [authenticate_eq]
    rw [isEmpty_or_false u p hu hp]
    simp only [Bool.false_eq_true, if_false]
    rw [findDocFor_insert_self s (newDoc cfg u p (lit "user")) (pyStrip u) hex
        (newDoc_username cfg u p (lit "user"))]
    simp [newDoc_password, newDoc_username, newDoc_role, check_hash_roundtrip cfg hs p]

/-- Witness for C1 on a fresh local store in degraded mode. -/
theorem claim1_witness :
    ∃ s', create_user cfgDev ⟨false, [], .parsedList []⟩ (lit "alice") (lit "pw") (lit "user")
        = .ok s' ∧
      authenticate cfgDev s' (lit "alice") (lit "pw")
        = .ok (some ⟨some (pyStrip (lit "alice")), lit "user"⟩) :=
  claim1_create_then_authenticate cfgDev ⟨false, [], .parsedList []⟩ (lit "alice") (lit "pw")
    (fun hav => absurd hav (by decide)) (by decide) (by decide) (by decide)

/-- C2 (amended): after a successful `create_user(u, p1)`, a second
`create_user(u, p2)` with a non-empty `p2` fails with `Conflict` (with an
empty `p2` the emptiness check fires first and the call fails with
`InvalidArgument` instead), and the store still holds exactly one record
for the trimmed `u`, carrying the hash produced by the first call. -/
theorem claim2_second_create_conflict (cfg : HashCfg) (s s' : AuthState) (u p1 p2 : Str)
    (h1 : create_user cfg s u p1 (lit "user") = .ok s') (hp2 : p2 ≠ []) :
    create_user cfg s' u p2 (lit "user") = .error .conflict ∧
    matchingDocs s' (pyStrip u) = [newDoc cfg u p1 (lit "user")] := by
  obtain ⟨hu, hp1, hex, rfl⟩ := (create_user_ok_iff cfg s u p1 (lit "user") s').mp h1
  constructor
  · rw [create_user_eq, isEmpty_or_false u p2 hu hp2]
    simp only [Bool.false_eq_true, if_false]
    rw [existsUser_insert_self s (newDoc cfg u p1 (lit "user")) (pyStrip u) hex
        (newDoc_username cfg u p1 (lit "user"))]
  · rw [matchingDocs_insert_self s _ _ (newDoc_username cfg u p1 (lit "user")),
        matchingDocs_empty_of_existsUser_false s _ hex]
    rfl

/-- Counterexample to C2 as stated ("any passwords"): with an empty second
password the second call fails with `InvalidArgument`, not `Conflict`. -/
theorem claim2_counterexample :
    create_user cfgDev ⟨false, [], .parsedList []⟩ (lit "a") (lit "x") (lit "user")
      = .ok ⟨false, [], .parsedList [.obj [(lit "username", lit "a"),
          (lit "password", lit "devhash$x"), (lit "role", lit "user")]]⟩ ∧
    create_user cfgDev ⟨false, [], .parsedList [.obj [(lit "username", lit "a"),
        (lit "password", lit "devhash$x"), (lit "role", lit "user")]]⟩ (lit "a") [] (lit "user")
      = .error .invalidArgument ∧
    PyError.invalidArgument ≠ PyError.conflict :=
  ⟨by decide, by decide, by decide⟩

/-- Witness for C2 at a concrete store. -/
theorem claim2_witness :
    create_user cfgDev ⟨false, [], .parsedList [.obj [(lit "username", lit "a"),
        (lit "password", lit "devhash$x"), (lit "role", lit "user")]]⟩ (lit "a") (lit "y")
      (lit "user") = .error .conflict ∧
    matchingDocs ⟨false, [], .parsedList [.obj [(lit "username", lit "a"),
        (lit "password", lit "devhash$x"), (lit "role", lit "user")]]⟩ (pyStrip (lit "a"))
      = [newDoc cfgDev (lit "a") (lit "x") (lit "user")] :=
  claim2_second_create_conflict cfgDev ⟨false, [], .parsedList []⟩
    ⟨false, [], .parsedList [.obj [(lit "username", lit "a"),
      (lit "password", lit "devhash$x"), (lit "role", lit "user")]]⟩
    (lit "a") (lit "x") (lit "y") (by decide) (by decide)

/-- C5 (amended): in every store state reachable by successful
`create_user` calls from an empty store, every stored item is a record
whose username field is present and already stripped of surrounding
whitespace, and usernames occur at most once (case-sensitive).  The
original claim's non-emptiness is dropped: `create_user` checks emptiness
before stripping, so a whitespace-only username is stored as the empty
string. -/
theorem claim5_store_invariant (cfg : HashCfg) (s : AuthState) (h : Reachable cfg s) :
    GoodStore s := by
  induction h with
  | localEmpty =>
    exact ⟨by intro it hit; simp [activeItems, _read_local] at hit,
           by simp [activeItems, _read_local]⟩
  | mongoEmpty =>
    exact ⟨by intro it hit; simp [activeItems] at hit, by simp [activeItems]⟩
  | step hr hc ih =>
    rename_i s0 s1 u p r
    obtain ⟨hu, hp, hex, rfl⟩ := (create_user_ok_iff _ _ _ _ _ _).mp hc
    constructor
    · intro it hit
      rw [activeItems_insertDoc] at hit
      rcases List.mem_append.mp hit with hit | hit
      · exact ih.1 it hit
      · rw [List.mem_singleton] at hit
        subst hit
        exact ⟨newDoc cfg u p r, rfl, pyStrip u, newDoc_username cfg u p r, pyStrip_idem u⟩
    · rw [activeItems_insertDoc, List.map_append, List.nodup_append]
      refine ⟨ih.2, List.nodup_singleton _, ?_⟩
      intro a ha hb
      rw [List.mem_map] at ha
      obtain ⟨it, hit, rfl⟩ := ha
      have hne := not_mem_usernames_of_existsUser_false s0 (pyStrip u) hex it hit
      have hb' : itemUsername it = some (pyStrip u) := by
        simpa [itemUsername, newDoc_username] using hb
      exact hne hb'

/-- Counterexample to C5 as stated: a whitespace-only username passes the
emptiness check, is stripped to the empty string, and is stored; the
reachable state below holds a record whose username is empty. -/
theorem claim5_counterexample :
    Reachable cfgDev ⟨false, [], .parsedList [.obj [(lit "username", []),
      (lit "password", lit "devhash$x"), (lit "role", lit "user")]]⟩ ∧
    JItem.obj [(lit "username", []), (lit "password", lit "devhash$x"), (lit "role", lit "user")]
      ∈ activeItems ⟨false, [], .parsedList [.obj [(lit "username", []),
        (lit "password", lit "devhash$x"), (lit "role", lit "user")]]⟩ ∧
    Doc.get [(lit "username", []), (lit "password", lit "devhash$x"), (lit "role", lit "user")]
      (lit "username") = some [] :=
  ⟨Reachable.step Reachable.localEmpty
    (show create_user cfgDev ⟨false, [], .parsedList []⟩ (lit " ") (lit "x") (lit "user")
      = .ok ⟨false, [], .parsedList [.obj [(lit "username", []),
        (lit "password", lit "devhash$x"), (lit "role", lit "user")]]⟩ from by decide),
   by decide, by decide⟩

/-- Witness for C5: the invariant at the concrete post-bootstrap state. -/
theorem claim5_witness :
    GoodStore ⟨false, [], .parsedList [.obj [(lit "username", lit "admin"),
      (lit "password", lit "devhash$admin123"), (lit "role", lit "admin")]]⟩ :=
  claim5_store_invariant cfgDev _
    (Reachable.step Reachable.localEmpty
      (show create_user cfgDev ⟨false, [], .parsedList []⟩ (lit "admin") (lit "admin123")
        (lit "admin") = .ok ⟨false, [], .parsedList [.obj [(lit "username", lit "admin"),
          (lit "password", lit "devhash$admin123"), (lit "role", lit "admin")]]⟩ from by decide))

/-- C3 (amended): the bootstrap administrator is created only in the
local-fallback branch of `__init__`: when Mongo is active the collection
is used as-is and is never bootstrapped, even with zero documents; when
the fallback is active and `_read_local` yields an empty list, the
`admin`/`admin123`/`admin` record is created; once any user exists the
bootstrap is not repeated. -/
theorem claim3_bootstrap_local_only (cfg : HashCfg) (connected : Option (List Doc))
    (lf : FileContent) :
    (∀ store, connected = some store →
      authInit cfg connected lf = .ok ⟨true, store, ensureFile lf⟩) ∧
    (connected = none → (_read_local (ensureFile lf)).isEmpty = true →
      authInit cfg connected lf = .ok ⟨false, [], .parsedList
        [.obj (newDoc cfg (lit "admin") (lit "admin123") (lit "admin"))]⟩) ∧
    (connected = none → (_read_local (ensureFile lf)).isEmpty = false →
      authInit cfg connected lf = .ok ⟨false, [], ensureFile lf⟩) := by
  refine ⟨?_, ?_, ?_⟩
  · intro store hc
    subst hc
    rfl
  · intro hc he
    subst hc
    have hl : _read_local (ensureFile lf) = [] := by
      cases hx : _read_local (ensureFile lf)
      · rfl
      · rw [hx] at he
        simp [List.isEmpty] at he
    rw [show authInit cfg none lf = (if (_read_local (ensureFile lf)).isEmpty = true then
        create_user cfg ⟨false, [], ensureFile lf⟩ (lit "admin") (lit "admin123") (lit "admin")
      else .ok ⟨false, [], ensureFile lf⟩) from rfl]
    rw [he, if_pos rfl]
    have h := (create_user_ok_iff cfg ⟨false, [], ensureFile lf⟩ (lit "admin") (lit "admin123")
      (lit "admin") (insertDoc ⟨false, [], ensureFile lf⟩
        (newDoc cfg (lit "admin") (lit "admin123") (lit "admin")))).mpr
      ⟨by decide, by decide, by simp [existsUser, hl, anyUsernameEq], rfl⟩
    rw [h]
    unfold insertDoc
    simp [hl]
  · intro hc he
    subst hc
    rw [show authInit cfg none lf = (if (_read_local (ensureFile lf)).isEmpty = true then
        create_user cfg ⟨false, [], ensureFile lf⟩ (lit "admin") (lit "admin123") (lit "admin")
      else .ok ⟨false, [], ensureFile lf⟩) from rfl]
    rw [he]
    simp

/-- Counterexample to C3 as stated: with Mongo active and zero documents,
no bootstrap administrator is created — the collection stays empty. -/
theorem claim3_counterexample :
    authInit cfgDev (some []) (.parsedList []) = .ok ⟨true, [], .parsedList []⟩ ∧
    activeItems ⟨true, [], .parsedList []⟩ = [] :=
  ⟨by decide, by decide⟩

/-- Witness for C3: a fresh missing local file gets the bootstrap admin. -/
theorem claim3_witness :
    authInit cfgDev none .missing = .ok ⟨false, [], .parsedList
      [.obj (newDoc cfgDev (lit "admin") (lit "admin123") (lit "admin"))]⟩ :=
  (claim3_bootstrap_local_only cfgDev none .missing).2.1 rfl (by decide)

theorem listLocalUsers_keys (items : List JItem) (out : List (List (Str × Option Str)))
    (h : listLocalUsers items = .ok out) :
    ∀ e ∈ out, ∀ kv ∈ e, kv.1 = lit "username" ∨ kv.1 = lit "role" := by
  induction items generalizing out with
  | nil =>
    obtain rfl := (Except.ok.inj h).symm
    intro e he
    exact absurd he (List.not_mem_nil e)
  | cons it rest ih =>
    cases it with
    | nonObj => simp [listLocalUsers] at h
    | obj d =>
      unfold listLocalUsers at h
      cases hr : listLocalUsers rest with
      | error e => rw [hr] at h; simp [Except.map] at h
      | ok out' =>
        rw [hr] at h
        simp only [Except.map] at h
        obtain rfl := (Except.ok.inj h).symm
        intro e he kv hkv
        rcases List.mem_cons.mp he with rfl | he'
        · rcases List.mem_cons.mp hkv with rfl | hkv'
          · exact Or.inl rfl
          · rcases List.mem_cons.mp hkv' with rfl | hkv''
            · exact Or.inr rfl
            · exact absurd hkv'' (List.not_mem_nil kv)
        · exact ih out' hr e he' kv hkv

/-- C8 (amended): no element returned by `list_users` ever carries a
`password` key, for either backend.  The local branch builds every
element from exactly the username and role fields, for every store
state.  The Mongo branch's `find({}, {"password": 0, "_id": 0})` is an
exclusion projection, so its elements contain only the username and role
fields whenever every stored document carries only the fields this
application writes (`username`, `password`, `role`, `_id`); an extra
field in a document is passed through. -/
theorem claim8_list_users_fields (s : AuthState)
    (out : List (List (Str × Option Str))) (h : list_users s = .ok out) :
    (∀ e ∈ out, ∀ kv ∈ e, kv.1 ≠ lit "password") ∧
    (s.useMongo = false →
      ∀ e ∈ out, ∀ kv ∈ e, kv.1 = lit "username" ∨ kv.1 = lit "role") ∧
    ((∀ d ∈ s.mongoStore, ∀ kv ∈ d, kv.1 = lit "username" ∨ kv.1 = lit "password" ∨
        kv.1 = lit "role" ∨ kv.1 = lit "_id") →
      ∀ e ∈ out, ∀ kv ∈ e, kv.1 = lit "username" ∨ kv.1 = lit "role") := by
  unfold list_users at h
  cases hm : s.useMongo with
  | true =>
    rw [hm] at h
    simp only [if_true] at h
    obtain rfl := (Except.ok.inj h).symm
    refine ⟨?_, ?_, ?_⟩
    · intro e he kv hkv
      rw [List.mem_map] at he
      obtain ⟨d, hd, rfl⟩ := he
      rw [List.mem_map] at hkv
      obtain ⟨kv', hkv', rfl⟩ := hkv
      have hp := List.of_mem_filter hkv'
      intro hkey
      rw [hkey] at hp
      simp at hp
    · intro hfalse
      simp_all
    · intro hshape e he kv hkv
      rw [List.mem_map] at he
      obtain ⟨d, hd, rfl⟩ := he
      rw [List.mem_map] at hkv
      obtain ⟨kv', hkv', rfl⟩ := hkv
      have hp := List.of_mem_filter hkv'
      have hmem := List.mem_of_mem_filter hkv'
      rcases hshape d hd kv' hmem with hk | hk | hk | hk
      · exact Or.inl hk
      · rw [hk] at hp
        simp at hp
      · exact Or.inr hk
      · rw [hk] at hp
        simp at hp
  | false =>
    rw [hm] at h
    simp only [Bool.false_eq_true, if_false] at h
    have hkeys := listLocalUsers_keys _ _ h
    refine ⟨?_, fun _ => hkeys, fun _ => hkeys⟩
    intro e he kv hkv
    rcases hkeys e he kv hkv with hk | hk
    · intro hc
      rw [hk] at hc
      exact absurd hc (by decide)
    · intro hc
      rw [hk] at hc
      exact absurd hc (by decide)

/-- Counterexample to C8 as stated: the Mongo projection excludes only
`password` and `_id`, so a stored document carrying an extra field
yields a returned element containing a field other than username and
role. -/
theorem claim8_counterexample :
    list_users ⟨true, [[(lit "username", lit "a"), (lit "password", lit "h"),
        (lit "role", lit "user"), (lit "email", lit "e")]], .parsedList []⟩
      = .ok [[(lit "username", some (lit "a")), (lit "role", some (lit "user")),
              (lit "email", some (lit "e"))]] ∧
    lit "email" ≠ lit "username" ∧ lit "email" ≠ lit "role" ∧
    lit "email" ≠ lit "password" := by decide

/-- Witness for C8 at a Mongo store whose document carries exactly the
application-written fields. -/
theorem claim8_witness :
    ((lit "username", some (lit "a")) : Str × Option Str).1 ≠ lit "password" ∧
    (((lit "username", some (lit "a")) : Str × Option Str).1 = lit "username" ∨
     ((lit "username", some (lit "a")) : Str × Option Str).1 = lit "role") := by
  have h := claim8_list_users_fields
    ⟨true, [[(lit "username", lit "a"), (lit "password", lit "h"), (lit "role", lit "user"),
      (lit "_id", lit "i")]], .parsedList []⟩
    [[(lit "username", some (lit "a")), (lit "role", some (lit "user"))]] (by decide)
  exact ⟨h.1 [(lit "username", some (lit "a")), (lit "role", some (lit "user"))] (by decide)
           (lit "username", some (lit "a")) (by decide),
         h.2.2 (by decide) [(lit "username", some (lit "a")), (lit "role", some (lit "user"))]
           (by decide) (lit "username", some (lit "a")) (by decide)⟩

/-- C9 (amended): local content that cannot be parsed, or parses to a
non-list value (or a missing file), is treated as the empty list by
`_read_local` and no failure reaches the caller: `authenticate` returns
`.ok none` and `list_users` returns `.ok []` on such a store.  Content
that parses to a list is however returned as-is even when its elements
are not records, and operations then raise on those elements. -/
theorem claim9_read_local_recovers (cfg : HashCfg) (c : FileContent) (u p : Str)
    (h : c = .unparsable ∨ c = .nonList ∨ c = .missing) :
    _read_local c = [] ∧
    authenticate cfg ⟨false, [], c⟩ u p = .ok none ∧
    list_users ⟨false, [], c⟩ = .ok [] := by
  have hr : _read_local c = [] := by rcases h with rfl | rfl | rfl <;> rfl
  refine ⟨hr, ?_, ?_⟩
  · rw [authenticate_eq]
    by_cases he : (u.isEmpty || p.isEmpty) = true
    · rw [if_pos he]
    · rw [if_neg he]
      rw [show findDocFor ⟨false, [], c⟩ (pyStrip u) = .ok none from by
        unfold findDocFor
        simp [hr, findUserDoc]]
  · unfold list_users
    simp [hr, listLocalUsers]

/-- Counterexample to C9 as stated: content parsing to a list of
non-records is not treated as an empty list, and the resulting
`AttributeError` propagates to the caller of `authenticate` and
`create_user`. -/
theorem claim9_counterexample :
    _read_local (.parsedList [.nonObj]) ≠ [] ∧
    authenticate cfgDev ⟨false, [], .parsedList [.nonObj]⟩ (lit "a") (lit "b")
      = .error .attributeError ∧
    create_user cfgDev ⟨false, [], .parsedList [.nonObj]⟩ (lit "a") (lit "b") (lit "user")
      = .error .attributeError :=
  ⟨by decide, by decide, by decide⟩

/-- Witness for C9 at unparsable content. -/
theorem claim9_witness :
    _read_local .unparsable = [] ∧
    authenticate cfgDev ⟨false, [], .unparsable⟩ (lit "a") (lit "b") = .ok none ∧
    list_users ⟨false, [], .unparsable⟩ = .ok [] :=
  claim9_read_local_recovers cfgDev .unparsable (lit "a") (lit "b") (Or.inl rfl)
